import Mathlib

/-!
Verification of the Tag-Browser repository against its specification.

The development shallowly embeds the pure logic of `Modules/utils.py` and
`Modules/tag_browser.py`.  Python strings are modelled as `List Char`
(`PyStr`), the file system as a partial map from paths to file contents,
and the directory tree walked by the browser as a list of directories
given by their path components relative to the root.
-/

/-- Python strings, modelled as lists of characters. -/
abbrev PyStr := List Char

/-- The whitespace characters removed by Python `str.strip()`
(space, tab, newline, carriage return, vertical tab, form feed). -/
def isPySpace (c : Char) : Bool :=
  c == ' ' || c == '\t' || c == '\n' || c == '\r' || c == '\x0b' || c == '\x0c'

/-- Model of Python `str.strip()`: remove leading and trailing whitespace. -/
def pyStrip (s : PyStr) : PyStr :=
  (s.dropWhile isPySpace).rdropWhile isPySpace

/-- Model of Python `str.lower()` (ASCII case folding). -/
def pyLower (s : PyStr) : PyStr := s.map Char.toLower

/-- Model of Python `sorted(set(l))` for a list of strings: drop duplicates,
then sort lexicographically by character code, as Python compares strings. -/
def pySortedSet (l : List PyStr) : List PyStr :=
  (l.dedup).insertionSort (· ≤ ·)

/-- Model of the Python substring test `needle in hay`. -/
def pyIn (needle hay : PyStr) : Bool := decide (needle <:+: hay)

/-- A file system state: maps a file path to its contents when the file
exists, `none` when it does not. -/
def FS : Type := PyStr → Option PyStr

/-- The parsing half of `utils.load_tags`: split the file contents on commas,
strip whitespace from every piece, and keep the non-empty results
(`[t.strip() for t in contents.split(',') if t.strip()]`). -/
def parseTags (contents : PyStr) : List PyStr :=
  ((contents.splitOn ',').map pyStrip).filter (fun t => !t.isEmpty)

/-- `utils.load_tags`: if the tag file exists, parse its comma-separated
contents; otherwise return the empty list. -/
def load_tags (fs : FS) (tag_file : PyStr) : List PyStr :=
  match fs tag_file with
  | some contents => parseTags contents
  | none => []

/-- The directory tree under the configured root directory. -/
structure DirTree where
  dirs : List (List PyStr)
  tagFileOf : List PyStr → Option PyStr

/-- `os.path.relpath(dirpath, root)`: the path of a directory relative to
the root, which is `"."` for the root itself and the components joined by
the separator otherwise. -/
def relPath (d : List PyStr) : PyStr :=
  match d with
  | [] => ['.']
  | _ => List.intercalate ['/'] d

/-- `relative_path.split(os.sep)` as used by the search and filter code. -/
def pathParts (rel : PyStr) : List PyStr := rel.splitOn '/'

/-- The publisher-name markers of `TagBrowser.load_publishers`:
`('$_', '$__', '#_', '#__', '__')`. -/
def pubMarkers : List PyStr :=
  [['$', '_'], ['$', '_', '_'], ['#', '_'], ['#', '_', '_'], ['_', '_']]

/-- `name.startswith(prefixes)` for the publisher marker tuple. -/
def isPublisherName (n : PyStr) : Bool :=
  pubMarkers.any (fun m => m.isPrefixOf n)

/-- `TagBrowser.load_publishers`: the top-level directories carrying a
recognized marker, sorted. -/
def listPublishers (t : DirTree) : List PyStr :=
  (t.dirs.filterMap (fun d =>
    match d with
    | [n] => if isPublisherName n then some n else none
    | _ => none)).insertionSort (· ≤ ·)

/-- Loading `dirpath/tag.txt` for a directory of the tree, exactly as
`utils.load_tags` does for the file at that path. -/
def loadDirTags (t : DirTree) (d : List PyStr) : List PyStr :=
  match t.tagFileOf d with
  | some contents => parseTags contents
  | none => []

/-- The cache built by `TagBrowser.load_all_tags`: walk every directory,
load its tag file, and record only the non-empty results, keyed by the
relative path. -/
def scanAllTags (t : DirTree) : List (PyStr × List PyStr) :=
  t.dirs.filterMap (fun d =>
    let tags := loadDirTags t d
    if tags.isEmpty then none else some (relPath d, tags))

/-- The sorted set comprehension computing `all_tags` from the cache. -/
def allTagsOf (cache : List (PyStr × List PyStr)) : List PyStr :=
  pySortedSet (cache.map Prod.snd).flatten

/-- The mutable state of the `TagBrowser` window: the scanned tree, the
cached unfiltered lists, the tag cache, and the four displayed lists. -/
structure BrowserState where
  tree : DirTree
  allPublishers : List PyStr
  allTopics : List (PyStr × PyStr)
  allChapters : List (PyStr × PyStr)
  tagCache : List (PyStr × List PyStr)
  allTags : List PyStr
  pubList : List PyStr
  topicList : List (PyStr × PyStr)
  chapterList : List (PyStr × PyStr)
  tagList : List PyStr

/-- `TagBrowser.load_publishers` acting on the window state. -/
def load_publishers (s : BrowserState) : BrowserState :=
  { s with allPublishers := listPublishers s.tree, pubList := listPublishers s.tree }

/-- `TagBrowser.load_all_tags` acting on the window state: clear and
rebuild the tag cache from the tree, then rebuild `all_tags` and the
displayed tag list. -/
def load_all_tags (s : BrowserState) : BrowserState :=
  { s with tagCache := scanAllTags s.tree,
           allTags := allTagsOf (scanAllTags s.tree),
           tagList := allTagsOf (scanAllTags s.tree) }

/-- `TagBrowser.reset_all_lists`: reload publishers and tags, and clear
the topic and chapter lists. -/
def reset_all_lists (s : BrowserState) : BrowserState :=
  { load_all_tags (load_publishers s) with topicList := [], chapterList := [] }

/-- The per-entry match test of the `global_search` cache loop: the query
occurs in the lowercased last path component, or in some lowercased tag. -/
def entryMatches (query rel : PyStr) (tags : List PyStr) : Bool :=
  pyIn query (pyLower ((pathParts rel).getLastD [])) ||
    tags.any (fun tg => pyIn query (pyLower tg))

/-- The topic row built by `global_search` for a depth-2 cache entry:
`(parts[1], relative_path)`. -/
def topicRow (rel : PyStr) : PyStr × PyStr :=
  ((pathParts rel).getD 1 [], rel)

/-- The chapter row built by `global_search` for a depth-3 cache entry:
`(f"{parts[2]} ({parts[1]})", relative_path)`. -/
def chapterRow (rel : PyStr) : PyStr × PyStr :=
  ((pathParts rel).getD 2 [] ++ ' ' :: '(' :: (pathParts rel).getD 1 [] ++ [')'], rel)

/-- `TagBrowser.global_search`: on an effectively empty query reset all
lists; otherwise filter publishers and tags by case-insensitive substring
match and partition the matching cache entries by path depth. -/
def global_search (s : BrowserState) (text : PyStr) : BrowserState :=
  let query := pyLower (pyStrip text)
  if query.isEmpty then reset_all_lists s
  else
    { s with
      pubList := s.allPublishers.filter (fun p => pyIn query (pyLower p)),
      tagList := s.allTags.filter (fun tg => pyIn query (pyLower tg)),
      topicList := s.tagCache.filterMap (fun e =>
        if entryMatches query e.1 e.2 && (pathParts e.1).length == 2
        then some (topicRow e.1) else none),
      chapterList := s.tagCache.filterMap (fun e =>
        if entryMatches query e.1 e.2 && (pathParts e.1).length == 3
        then some (chapterRow e.1) else none) }

/-- `os.listdir` restricted to subdirectories of a publisher folder, as
`compute_statistics` enumerates topics. -/
def topicsOf (t : DirTree) (pub : PyStr) : List PyStr :=
  t.dirs.filterMap (fun d =>
    match d with
    | [a, b] => if a = pub then some b else none
    | _ => none)

/-- The subdirectories of a topic folder, as `compute_statistics`
enumerates chapters. -/
def chaptersOf (t : DirTree) (pub topic : PyStr) : List PyStr :=
  t.dirs.filterMap (fun d =>
    match d with
    | [a, b, c] => if a = pub ∧ b = topic then some c else none
    | _ => none)

/-- The dictionary produced by `TagBrowser.compute_statistics`. -/
structure Stats where
  totalPublishers : Nat
  totalTopics : Nat
  totalChapters : Nat
  totalUniqueTags : Nat
  topicsPerPublisher : List (PyStr × Nat)
  chaptersPerTopic : List (PyStr × Nat)
  tagUsage : List (PyStr × Nat)

/-- `TagBrowser.compute_statistics`: counts of publishers, topics and
chapters, plus per-publisher, per-topic and per-tag breakdowns. -/
def compute_statistics (s : BrowserState) : Stats :=
  let ptc := s.allPublishers.map (fun pub => (pub, (topicsOf s.tree pub).length))
  let ctc := (s.allPublishers.map (fun pub =>
    (topicsOf s.tree pub).map (fun tp =>
      (pub ++ '/' :: tp, (chaptersOf s.tree pub tp).length)))).flatten
  { totalPublishers := s.allPublishers.length
    totalTopics := (ptc.map Prod.snd).sum
    totalChapters := (ctc.map Prod.snd).sum
    totalUniqueTags := s.allTags.length
    topicsPerPublisher := ptc
    chaptersPerTopic := ctc
    tagUsage := s.allTags.map (fun tg =>
      (tg, s.tagCache.countP (fun e => decide (tg ∈ e.2)))) }

/-- A row of the CSV consumed by `TagBrowser.import_tags`; a field is
`none` when the corresponding column is missing from the row. -/
structure CsvRow where
  pathField : Option PyStr
  tagsField : Option PyStr

/-- The body of the row loop of `TagBrowser.import_tags` for one row.
Accessing a missing `Path` or `Tags` column raises in Python
(`KeyError`, or `AttributeError` on the `None` placeholder), modelled as
`Except.error`.  A row whose path is not an existing directory is
silently skipped. -/
def import_row (overwrite : Bool) (t : DirTree) (row : CsvRow) :
    Except Unit DirTree :=
  match row.pathField, row.tagsField with
  | some rel, some tagsStr =>
    let newTags := parseTags tagsStr
    let d := pathParts rel
    if d ∈ t.dirs then
      let stored := if overwrite then newTags else (loadDirTags t d ++ newTags).dedup
      let written := fun d2 =>
        if d2 = d then some (List.intercalate [',', ' '] (pySortedSet stored))
        else t.tagFileOf d2
      Except.ok { t with tagFileOf := written }
    else Except.ok t
  | _, _ => Except.error ()

/-- The row loop of `TagBrowser.import_tags`: rows are processed in
order, and an exception in any row aborts the remainder of the loop. -/
def import_tags (overwrite : Bool) (t : DirTree) : List CsvRow → Except Unit DirTree
  | [] => Except.ok t
  | row :: rest =>
    match import_row overwrite t row with
    | Except.ok t2 => import_tags overwrite t2 rest
    | Except.error e => Except.error e

/-- The shape invariant of loaded tags: non-empty, whitespace-trimmed and
comma-free. -/
def cleanTag (tg : PyStr) : Prop :=
  tg ≠ [] ∧ pyStrip tg = tg ∧ (',' : Char) ∉ tg

instance (tg : PyStr) : Decidable (cleanTag tg) := by
  unfold cleanTag
  infer_instance

def c4Tree : DirTree :=
  { dirs := [[], ["$_p".toList], ["$_p".toList, "t".toList]],
    tagFileOf := fun d =>
      if d = ["$_p".toList, "t".toList] then some "b".toList else none }

def c9Tree : DirTree :=
  { dirs := [[], ["$_p".toList], ["$_p".toList, "t".toList]],
    tagFileOf := fun _ => none }

def c9Rows : List CsvRow :=
  [⟨some "$_p/t".toList, none⟩, ⟨some "$_p/t".toList, some "a".toList⟩]

def c3Tree : DirTree := { dirs := [[]], tagFileOf := fun _ => none }

/-- A window state whose unfiltered topic list is non-empty, about to be
fed an empty query. -/
def c3State : BrowserState :=
  { tree := c3Tree
    allPublishers := []
    allTopics := [("t".toList, "$_p/t".toList)]
    allChapters := []
    tagCache := []
    allTags := []
    pubList := []
    topicList := [("t".toList, "$_p/t".toList)]
    chapterList := []
    tagList := [] }

/-- A walked directory that `load_publishers` recognizes as a publisher
folder: depth one with a recognized marker. -/
def isPubDir : List PyStr → Bool
  | [n] => isPublisherName n
  | _ => false

def c7Pubs : List PyStr := ["$_p1".toList, "$_p2".toList]

def c7Topics : List PyStr := ["t1".toList, "t2".toList, "t3".toList]

def c7Chaps : List PyStr := ["c1".toList, "c2".toList]

def c7Dirs : List (List PyStr) :=
  [[]] ++ c7Pubs.map (fun p => [p])
    ++ (c7Pubs.map (fun p => c7Topics.map (fun tp => [p, tp]))).flatten
    ++ ((c7Pubs.map (fun p =>
          (c7Topics.map (fun tp => c7Chaps.map (fun c => [p, tp, c]))).flatten)).flatten)

def c7Tree : DirTree := { dirs := c7Dirs, tagFileOf := fun _ => none }

def c7State : BrowserState :=
  { tree := c7Tree
    allPublishers := listPublishers c7Tree
    allTopics := []
    allChapters := []
    tagCache := scanAllTags c7Tree
    allTags := allTagsOf (scanAllTags c7Tree)
    pubList := listPublishers c7Tree
    topicList := []
    chapterList := []
    tagList := allTagsOf (scanAllTags c7Tree) }

def c2Tree : DirTree := { dirs := [[]], tagFileOf := fun _ => none }

def c2State : BrowserState :=
  { tree := c2Tree
    allPublishers := ["$_pab".toList]
    allTopics := []
    allChapters := []
    tagCache := [("$_pab/top".toList, ["alpha".toList]),
                 ("$_pab/top/chap".toList, ["beta".toList])]
    allTags := ["alpha".toList, "beta".toList]
    pubList := []
    topicList := []
    chapterList := []
    tagList := [] }

/-- `utils.save_tags`: write `', '.join(sorted(set(tags)))` to the file,
overwriting it unconditionally. -/
def save_tags (fs : FS) (tag_file : PyStr) (tags : List PyStr) : FS :=
  fun p =>
    if p = tag_file then some (List.intercalate [',', ' '] (pySortedSet tags))
    else fs p

/-- C9 evaluated on the code: a first row missing its Tags column makes
the whole import raise, so the well-formed second row is never applied,
although that row succeeds when processed on its own. -/
theorem c9_malformed_row_aborts :
    import_tags false c9Tree c9Rows = Except.error () ∧
    ∃ t2, import_tags false c9Tree (c9Rows.drop 1) = Except.ok t2 ∧
      t2.tagFileOf ["$_p".toList, "t".toList] = some "a".toList := by
  refine ⟨rfl, ⟨_, rfl, ?_⟩⟩
  decide

theorem sorted_pySortedSet (l : List PyStr) :
    List.Sorted (· ≤ ·) (pySortedSet l) :=
  List.sorted_insertionSort _ _

theorem nodup_pySortedSet (l : List PyStr) : (pySortedSet l).Nodup :=
  (List.perm_insertionSort _ _).nodup_iff.mpr (List.nodup_dedup l)

theorem mem_pySortedSet {a : PyStr} {l : List PyStr} :
    a ∈ pySortedSet l ↔ a ∈ l := by
  unfold pySortedSet
  rw [List.Perm.mem_iff (List.perm_insertionSort _ _), List.mem_dedup]

theorem pySortedSet_eq_of_mem_iff {l₁ l₂ : List PyStr}
    (h : ∀ a, a ∈ l₁ ↔ a ∈ l₂) : pySortedSet l₁ = pySortedSet l₂ := by
  apply List.eq_of_perm_of_sorted ?_ (sorted_pySortedSet l₁) (sorted_pySortedSet l₂)
  apply List.perm_of_nodup_nodup_toFinset_eq (nodup_pySortedSet l₁) (nodup_pySortedSet l₂)
  ext a
  simp only [List.mem_toFinset, mem_pySortedSet]
  exact h a

theorem pyStrip_cons_space (s : PyStr) : pyStrip (' ' :: s) = pyStrip s := by
  simp [pyStrip, List.dropWhile_cons, isPySpace]

theorem mem_of_mem_pyStrip {x : Char} {s : PyStr} (hx : x ∈ pyStrip s) : x ∈ s := by
  unfold pyStrip at hx
  exact (List.dropWhile_suffix isPySpace).sublist.mem
    (( List.rdropWhile_prefix _ _).sublist.mem hx)

theorem pyStrip_idem (s : PyStr) : pyStrip (pyStrip s) = pyStrip s := by
  unfold pyStrip
  have hu : (s.dropWhile isPySpace).dropWhile isPySpace = s.dropWhile isPySpace :=
    List.dropWhile_idempotent _ _
  have hpre : (s.dropWhile isPySpace).rdropWhile isPySpace <+: s.dropWhile isPySpace :=
    List.rdropWhile_prefix _ _
  have hv : ((s.dropWhile isPySpace).rdropWhile isPySpace).dropWhile isPySpace
      = (s.dropWhile isPySpace).rdropWhile isPySpace := by
    cases hv0 : (s.dropWhile isPySpace).rdropWhile isPySpace with
    | nil => simp
    | cons c cs =>
      obtain ⟨t, ht⟩ := hpre
      rw [hv0, List.cons_append] at ht
      have hc : isPySpace c = false := by
        by_contra hcc
        have hc' : isPySpace c = true := by
          cases h' : isPySpace c
          · exact absurd h' hcc
          · rfl
        rw [← ht, List.dropWhile_cons, if_pos hc'] at hu
        have hlen := (List.dropWhile_suffix (l := cs ++ t) isPySpace).sublist.length_le
        rw [hu] at hlen
        simp at hlen
      rw [List.dropWhile_cons, hc]
      simp
  rw [hv, List.rdropWhile_idempotent]

theorem splitOnP_pieces {α : Type} (p : α → Bool) (xs : List α) :
    ∀ piece ∈ xs.splitOnP p, ∀ x ∈ piece, ¬ p x := by
  induction xs with
  | nil =>
    intro piece hpiece x hx
    rw [List.splitOnP_nil] at hpiece
    simp only [List.mem_singleton] at hpiece
    subst hpiece
    exact absurd hx (List.not_mem_nil x)
  | cons a xs ih =>
    intro piece hpiece x hx
    rw [List.splitOnP_cons] at hpiece
    by_cases ha : p a
    · rw [if_pos ha] at hpiece
      rcases List.mem_cons.mp hpiece with h | h
      · subst h; exact absurd hx (List.not_mem_nil x)
      · exact ih piece h x hx
    · rw [if_neg ha] at hpiece
      cases hsp : xs.splitOnP p with
      | nil => exact absurd hsp (List.splitOnP_ne_nil p xs)
      | cons hd tl =>
        rw [hsp] at hpiece
        simp only [List.modifyHead, List.mem_cons] at hpiece
        rcases hpiece with h | h
        · subst h
          rcases List.mem_cons.mp hx with h' | h'
          · subst h'; exact ha
          · exact ih hd (hsp ▸ List.mem_cons_self hd tl) x h'
        · exact ih piece (hsp ▸ List.mem_cons_of_mem hd h) x hx

theorem mem_splitOn_no_sep {sep : Char} {s piece : PyStr}
    (h : piece ∈ s.splitOn sep) : sep ∉ piece := by
  intro hmem
  exact splitOnP_pieces (· == sep) s piece h sep hmem (by simp)

theorem splitOn_cons_ne (c sep : Char) (s : PyStr) (hc : (c == sep) = false) :
    (c :: s).splitOn sep = (s.splitOn sep).modifyHead (List.cons c) := by
  simp only [List.splitOn, List.splitOnP_cons, hc]
  simp

theorem splitOn_append_sep (xs as : PyStr) (sep : Char) (hx : sep ∉ xs) :
    (xs ++ sep :: as).splitOn sep = xs :: as.splitOn sep := by
  apply List.splitOnP_first
  · intro x hxx hb
    exact hx (eq_of_beq hb ▸ hxx)
  · simp

theorem parseTags_cons_space (s : PyStr) : parseTags (' ' :: s) = parseTags s := by
  unfold parseTags
  cases hsp : s.splitOn ',' with
  | nil => exact absurd hsp (List.splitOnP_ne_nil _ s)
  | cons hd tl =>
    rw [splitOn_cons_ne ' ' ',' s (by decide), hsp]
    simp [pyStrip_cons_space]

theorem parseTags_append_piece (p as : PyStr) (hp0 : p ≠ [])
    (hps : pyStrip p = p) (hpc : (',' : Char) ∉ p) :
    parseTags (p ++ ',' :: as) = p :: parseTags as := by
  unfold parseTags
  rw [splitOn_append_sep _ _ _ hpc, List.map_cons, hps, List.filter_cons]
  simp [hp0]

theorem intercalate_cons_cons {α : Type} (sep : List α) (x y : List α)
    (l : List (List α)) :
    List.intercalate sep (x :: y :: l) = x ++ sep ++ List.intercalate sep (y :: l) := by
  simp [List.intercalate, List.intersperse_cons_cons, List.append_assoc]

theorem parseTags_intercalate (ps : List PyStr)
    (h : ∀ p ∈ ps, p ≠ [] ∧ pyStrip p = p ∧ (',' : Char) ∉ p) :
    parseTags (List.intercalate [',', ' '] ps) = ps := by
  induction ps with
  | nil => rfl
  | cons p rest ih =>
    obtain ⟨hp0, hps, hpc⟩ := h p (List.mem_cons_self p rest)
    cases rest with
    | nil =>
      have hone : List.intercalate ([',', ' '] : PyStr) [p] = p := by
        simp [List.intercalate]
      rw [hone]
      have hsp : p.splitOn ',' = [p] :=
        List.splitOnP_eq_single _ _ (fun x hx hb => hpc (eq_of_beq hb ▸ hx))
      unfold parseTags
      rw [hsp, List.map_cons, hps]
      simp [hp0]
    | cons q rest2 =>
      have hI : List.intercalate ([',', ' '] : PyStr) (p :: q :: rest2)
          = p ++ ',' :: ' ' :: List.intercalate [',', ' '] (q :: rest2) := by
        rw [intercalate_cons_cons]
        simp [List.append_assoc]
      rw [hI, parseTags_append_piece p _ hp0 hps hpc, parseTags_cons_space,
        ih (fun r hr => h r (List.mem_cons_of_mem p hr))]

/-- C1: for tags that are non-empty, comma-free, and free of surrounding
whitespace, saving with `save_tags` and reloading with `load_tags` on the
same path returns exactly the sorted, deduplicated form of the tags. -/
theorem c1_save_load_roundtrip (fs : FS) (path : PyStr) (tags : List PyStr)
    (h : ∀ tg ∈ tags, tg ≠ [] ∧ pyStrip tg = tg ∧ (',' : Char) ∉ tg) :
    load_tags (save_tags fs path tags) path = pySortedSet tags := by
  have hfs : (save_tags fs path tags) path
      = some (List.intercalate [',', ' '] (pySortedSet tags)) := by
    unfold save_tags
    rw [if_pos rfl]
  unfold load_tags
  rw [hfs]
  exact parseTags_intercalate _ (fun p hp => h p (mem_pySortedSet.mp hp))

/-- Witness for C1: a concrete round trip through an initially empty file
system, with a duplicated, unsorted tag list. -/
theorem c1_witness :
    load_tags (save_tags (fun _ => none) ['t'] [['b'], ['a'], ['b']]) ['t']
      = pySortedSet [['b'], ['a'], ['b']] ∧
    pySortedSet [['b'], ['a'], ['b']] = [['a'], ['b']] :=
  ⟨c1_save_load_roundtrip (fun _ => none) ['t'] [['b'], ['a'], ['b']] (by decide),
   by decide⟩

/-- C5: loading tags from a path whose tag file does not exist returns the
empty tag list; the embedded function is total, so no error is possible. -/
theorem c5_missing_file (fs : FS) (path : PyStr) (h : fs path = none) :
    load_tags fs path = [] := by
  unfold load_tags
  rw [h]

/-- Witness for C5: the empty file system has no tag file anywhere. -/
theorem c5_witness : load_tags (fun _ => none) ['a'] = [] :=
  c5_missing_file (fun _ => none) ['a'] rfl

/-- C6: deduplication is case-sensitive and non-normalizing: the tag list
fiction, Fiction, drama survives a save plus reload as three distinct
entries (sorted by character code, so the capitalized one comes first). -/
theorem c6_case_sensitive_dedup :
    load_tags (save_tags (fun _ => none) ['t']
        ["fiction".toList, "Fiction".toList, "drama".toList]) ['t']
      = ["Fiction".toList, "drama".toList, "fiction".toList] ∧
    (load_tags (save_tags (fun _ => none) ['t']
        ["fiction".toList, "Fiction".toList, "drama".toList]) ['t']).length = 3 ∧
    (load_tags (save_tags (fun _ => none) ['t']
        ["fiction".toList, "Fiction".toList, "drama".toList]) ['t']).Nodup := by
  refine ⟨?_, ?_, ?_⟩ <;> decide

/-- C8: after `load_all_tags`, the cache no longer depends on its previous
contents, and it holds an entry iff some walked directory's tag file loads
to a non-empty tag list, keyed by that directory's relative path. -/
theorem c8_scan_replaces_cache (s : BrowserState) :
    (load_all_tags s).tagCache = scanAllTags s.tree ∧
    ∀ rel tags, (rel, tags) ∈ (load_all_tags s).tagCache ↔
      ∃ d ∈ s.tree.dirs, relPath d = rel ∧ loadDirTags s.tree d = tags ∧ tags ≠ [] := by
  refine ⟨rfl, fun rel tags => ?_⟩
  show (rel, tags) ∈ scanAllTags s.tree ↔ _
  unfold scanAllTags
  rw [List.mem_filterMap]
  constructor
  · rintro ⟨d, hd, hsome⟩
    simp only at hsome
    by_cases he : (loadDirTags s.tree d).isEmpty
    · rw [if_pos he] at hsome
      exact absurd hsome (by simp)
    · rw [if_neg he] at hsome
      rw [Option.some_inj, Prod.mk.injEq] at hsome
      refine ⟨d, hd, hsome.1, hsome.2, ?_⟩
      rw [← hsome.2]
      simpa using he
  · rintro ⟨d, hd, hrel, htags, hne⟩
    refine ⟨d, hd, ?_⟩
    simp only
    rw [if_neg (by rw [htags]; simpa using hne), Option.some_inj, Prod.mk.injEq]
    exact ⟨hrel, htags⟩

theorem parseTags_clean (contents : PyStr) :
    ∀ tg ∈ parseTags contents, cleanTag tg := by
  intro tg htg
  unfold parseTags at htg
  rw [List.mem_filter] at htg
  obtain ⟨hmem, hne⟩ := htg
  rw [List.mem_map] at hmem
  obtain ⟨piece, hpiece, hstrip⟩ := hmem
  subst hstrip
  refine ⟨by simpa using hne, pyStrip_idem piece, ?_⟩
  intro hc
  exact mem_splitOn_no_sep hpiece (mem_of_mem_pyStrip hc)

theorem loadDirTags_clean (t : DirTree) (d : List PyStr) :
    ∀ tg ∈ loadDirTags t d, cleanTag tg := by
  intro tg htg
  unfold loadDirTags at htg
  cases ht : t.tagFileOf d with
  | none => rw [ht] at htg; exact absurd htg (List.not_mem_nil tg)
  | some c => rw [ht] at htg; exact parseTags_clean c tg htg

/-- C10: every tag returned by `load_tags` is non-empty, whitespace-free
at both ends, and comma-free; consequently every tag stored in the cache
and in the derived `all_tags` list after a scan satisfies the same
invariant; and a tag containing a comma is split at the comma by a
save-then-load round trip. -/
theorem c10_loaded_tags_clean (fs : FS) (t : DirTree) :
    (∀ path tg, tg ∈ load_tags fs path → cleanTag tg) ∧
    (∀ e ∈ scanAllTags t, ∀ tg ∈ e.2, cleanTag tg) ∧
    (∀ tg ∈ allTagsOf (scanAllTags t), cleanTag tg) ∧
    load_tags (save_tags (fun _ => none) ['f'] [['a', ',', 'b']]) ['f']
      = [['a'], ['b']] := by
  have hcache : ∀ e ∈ scanAllTags t, ∀ tg ∈ e.2, cleanTag tg := by
    rintro e he tg htg
    unfold scanAllTags at he
    rw [List.mem_filterMap] at he
    obtain ⟨d, _, hsome⟩ := he
    simp only at hsome
    by_cases hemp : (loadDirTags t d).isEmpty
    · rw [if_pos hemp] at hsome
      exact absurd hsome (by simp)
    · rw [if_neg hemp] at hsome
      rw [Option.some_inj] at hsome
      have he2 : e.2 = loadDirTags t d := by rw [← hsome]
      rw [he2] at htg
      exact loadDirTags_clean t d tg htg
  refine ⟨?_, hcache, ?_, by decide⟩
  · intro path tg htg
    unfold load_tags at htg
    cases hfs : fs path with
    | none => rw [hfs] at htg; exact absurd htg (List.not_mem_nil tg)
    | some c => rw [hfs] at htg; exact parseTags_clean c tg htg
  · intro tg htg
    unfold allTagsOf at htg
    rw [mem_pySortedSet, List.mem_flatten] at htg
    obtain ⟨tags, htags, htg2⟩ := htg
    rw [List.mem_map] at htags
    obtain ⟨e, he, h2⟩ := htags
    exact hcache e he tg (h2 ▸ htg2)

/-- Witness for C10: the invariant holds of a concretely loaded tag. -/
theorem c10_witness : cleanTag ['a'] :=
  (c10_loaded_tags_clean (fun _ => some ['a']) ⟨[], fun _ => none⟩).1 ['x'] ['a']
    (by decide)

/-- C4: importing a CSV row in merge mode writes the deduplicated union
of the existing tags and the imported tags; the stored list has exactly
the union as members, and swapping the two sides stores the same list. -/
theorem c4_merge_union_commutative (t : DirTree) (rel tagsStr : PyStr)
    (hdir : pathParts rel ∈ t.dirs) :
    ∃ t2, import_row false t ⟨some rel, some tagsStr⟩ = Except.ok t2 ∧
      t2.tagFileOf (pathParts rel) = some (List.intercalate [',', ' ']
        (pySortedSet (loadDirTags t (pathParts rel) ++ parseTags tagsStr))) ∧
      (∀ x, x ∈ pySortedSet (loadDirTags t (pathParts rel) ++ parseTags tagsStr) ↔
        x ∈ loadDirTags t (pathParts rel) ∨ x ∈ parseTags tagsStr) ∧
      pySortedSet (loadDirTags t (pathParts rel) ++ parseTags tagsStr)
        = pySortedSet (parseTags tagsStr ++ loadDirTags t (pathParts rel)) := by
  unfold import_row
  simp only [if_pos hdir, if_neg Bool.false_ne_true]
  refine ⟨_, rfl, ?_, ?_, ?_⟩
  · show (if pathParts rel = pathParts rel then _ else _) = _
    rw [if_pos rfl, Option.some_inj]
    congr 1
    apply pySortedSet_eq_of_mem_iff
    intro a
    rw [List.mem_dedup]
  · intro x
    rw [mem_pySortedSet, List.mem_append]
  · apply pySortedSet_eq_of_mem_iff
    intro a
    rw [List.mem_append, List.mem_append, Or.comm]

/-- Witness for C4 at a concrete tree whose target directory already
holds the tag b, merging in the tag a. -/
theorem c4_witness :
    ∃ t2, import_row false c4Tree ⟨some "$_p/t".toList, some "a".toList⟩
        = Except.ok t2 ∧
      t2.tagFileOf (pathParts "$_p/t".toList) = some (List.intercalate [',', ' ']
        (pySortedSet (loadDirTags c4Tree (pathParts "$_p/t".toList)
          ++ parseTags "a".toList))) ∧
      (∀ x, x ∈ pySortedSet (loadDirTags c4Tree (pathParts "$_p/t".toList)
          ++ parseTags "a".toList) ↔
        x ∈ loadDirTags c4Tree (pathParts "$_p/t".toList) ∨
          x ∈ parseTags "a".toList) ∧
      pySortedSet (loadDirTags c4Tree (pathParts "$_p/t".toList)
          ++ parseTags "a".toList)
        = pySortedSet (parseTags "a".toList
          ++ loadDirTags c4Tree (pathParts "$_p/t".toList)) :=
  c4_merge_union_commutative c4Tree "$_p/t".toList "a".toList (by decide)

/-- C3 as stated is false: an empty query clears the topic list instead
of restoring its pre-filter contents. -/
theorem c3_counterexample :
    (global_search c3State []).topicList ≠ c3State.topicList := by
  decide

/-- C3 amended: an empty or whitespace-only query resets the window:
publishers and tags are reloaded from the file tree (yielding the full
unfiltered lists), while the topic and chapter lists are cleared. -/
theorem c3_empty_query_resets (s : BrowserState) (text : PyStr)
    (h : pyStrip text = []) :
    global_search s text = reset_all_lists s ∧
    (global_search s text).pubList = listPublishers s.tree ∧
    (global_search s text).allPublishers = listPublishers s.tree ∧
    (global_search s text).tagList = allTagsOf (scanAllTags s.tree) ∧
    (global_search s text).topicList = [] ∧
    (global_search s text).chapterList = [] := by
  have hq : (pyLower (pyStrip text)).isEmpty = true := by
    rw [h]
    rfl
  have hgs : global_search s text = reset_all_lists s := by
    unfold global_search
    rw [if_pos hq]
  exact ⟨hgs, by rw [hgs]; rfl, by rw [hgs]; rfl, by rw [hgs]; rfl,
    by rw [hgs]; rfl, by rw [hgs]; rfl⟩

/-- Witness for the amended C3 at a whitespace-only query. -/
theorem c3_witness :
    global_search c3State [' '] = reset_all_lists c3State ∧
    (global_search c3State [' ']).pubList = listPublishers c3State.tree ∧
    (global_search c3State [' ']).allPublishers = listPublishers c3State.tree ∧
    (global_search c3State [' ']).tagList = allTagsOf (scanAllTags c3State.tree) ∧
    (global_search c3State [' ']).topicList = [] ∧
    (global_search c3State [' ']).chapterList = [] :=
  c3_empty_query_resets c3State [' '] (by decide)

theorem length_filterMap_eq_countP {α β : Type} (f : α → Option β) (l : List α) :
    (l.filterMap f).length = l.countP (fun a => (f a).isSome) := by
  induction l with
  | nil => rfl
  | cons a l ih =>
    rw [List.filterMap_cons, List.countP_cons]
    cases hfa : f a <;> simp [hfa, ih]

theorem length_listPublishers (t : DirTree) :
    (listPublishers t).length = t.dirs.countP isPubDir := by
  unfold listPublishers
  rw [(List.perm_insertionSort _ _).length_eq, length_filterMap_eq_countP]
  apply List.countP_congr
  intro d _
  rcases d with _ | ⟨n, _ | ⟨b, rest⟩⟩
  · rfl
  · by_cases h : isPublisherName n <;> simp [h, isPubDir]
  · rfl

theorem lookup_map_self {β : Type} (f : PyStr → β) (l : List PyStr) (a : PyStr)
    (ha : a ∈ l) :
    (l.map (fun x => (x, f x))).lookup a = some (f a) := by
  induction l with
  | nil => exact absurd ha (List.not_mem_nil a)
  | cons x l ih =>
    rw [List.map_cons]
    by_cases hax : a = x
    · subst hax
      simp [List.lookup]
    · have hb : (a == x) = false := by simp [hax]
      rcases List.mem_cons.mp ha with h | h
      · exact absurd h hax
      · simp [List.lookup, hb, ih h]

/-- C7: the statistics hold the number of recognized publisher folders,
the sums of the per-publisher topic counts and of the per-topic chapter
counts, and, for every tag of `all_tags`, a usage count equal to the
number of cached folders whose tag set contains that tag. -/
theorem c7_statistics (s : BrowserState)
    (hp : s.allPublishers = listPublishers s.tree) :
    (compute_statistics s).totalPublishers = s.tree.dirs.countP isPubDir ∧
    (compute_statistics s).totalTopics
      = ((compute_statistics s).topicsPerPublisher.map Prod.snd).sum ∧
    (compute_statistics s).totalChapters
      = ((compute_statistics s).chaptersPerTopic.map Prod.snd).sum ∧
    ∀ tg ∈ s.allTags, ((compute_statistics s).tagUsage).lookup tg
      = some (s.tagCache.countP (fun e => decide (tg ∈ e.2))) := by
  refine ⟨?_, rfl, rfl, ?_⟩
  · show s.allPublishers.length = _
    rw [hp, length_listPublishers]
  · intro tg htg
    exact lookup_map_self _ _ _ htg

/-- Witness for C7: a root with 2 publishers, 3 topics per publisher and
2 chapters per topic yields totals 2, 6 and 12. -/
theorem c7_witness :
    (compute_statistics c7State).totalPublishers = 2 ∧
    (compute_statistics c7State).totalTopics = 6 ∧
    (compute_statistics c7State).totalChapters = 12 := by
  have h := c7_statistics c7State rfl
  exact ⟨h.1.trans (by decide), h.2.1.trans (by decide), h.2.2.1.trans (by decide)⟩

theorem global_search_nonempty (s : BrowserState) (text : PyStr)
    (h : (pyLower (pyStrip text)).isEmpty = false) :
    global_search s text = { s with
      pubList := s.allPublishers.filter
        (fun p => pyIn (pyLower (pyStrip text)) (pyLower p)),
      tagList := s.allTags.filter
        (fun tg => pyIn (pyLower (pyStrip text)) (pyLower tg)),
      topicList := s.tagCache.filterMap (fun e =>
        if entryMatches (pyLower (pyStrip text)) e.1 e.2
            && (pathParts e.1).length == 2
        then some (topicRow e.1) else none),
      chapterList := s.tagCache.filterMap (fun e =>
        if entryMatches (pyLower (pyStrip text)) e.1 e.2
            && (pathParts e.1).length == 3
        then some (chapterRow e.1) else none) } := by
  unfold global_search
  rw [if_neg]
  rw [h]
  exact Bool.false_ne_true

theorem mem_searchRows (q : PyStr) (cache : List (PyStr × List PyStr)) (k : Nat)
    (row : PyStr → PyStr × PyStr) (hrow : ∀ r, (row r).2 = r) (nm rel : PyStr) :
    ((nm, rel) ∈ cache.filterMap (fun e =>
        if entryMatches q e.1 e.2 && (pathParts e.1).length == k
        then some (row e.1) else none) ↔
      ∃ tags, (rel, tags) ∈ cache ∧ (pathParts rel).length = k ∧
        nm = (row rel).1 ∧
        (pyIn q (pyLower ((pathParts rel).getLastD [])) = true ∨
          ∃ tg ∈ tags, pyIn q (pyLower tg) = true)) := by
  rw [List.mem_filterMap]
  constructor
  · rintro ⟨⟨rel2, tags⟩, hmem, hsome⟩
    by_cases hcond : (entryMatches q rel2 tags && (pathParts rel2).length == k) = true
    · rw [if_pos hcond] at hsome
      rw [Option.some_inj] at hsome
      have hrel : rel2 = rel := by
        have h2 := hrow rel2
        rw [hsome] at h2
        exact h2.symm
      subst hrel
      rw [Bool.and_eq_true] at hcond
      obtain ⟨hm, hk⟩ := hcond
      have hnm : nm = (row rel2).1 := by rw [hsome]
      refine ⟨tags, hmem, beq_iff_eq.mp hk, hnm, ?_⟩
      unfold entryMatches at hm
      rw [Bool.or_eq_true] at hm
      rcases hm with hm | hm
      · exact Or.inl hm
      · rcases List.any_eq_true.mp hm with ⟨tg, htg, hptg⟩
        exact Or.inr ⟨tg, htg, hptg⟩
    · rw [if_neg hcond] at hsome
      exact absurd hsome (by simp)
  · rintro ⟨tags, hmem, hlen, hnm, hmatch⟩
    refine ⟨(rel, tags), hmem, ?_⟩
    have hcond : (entryMatches q rel tags && (pathParts rel).length == k) = true := by
      rw [Bool.and_eq_true]
      refine ⟨?_, by rw [hlen]; exact beq_self_eq_true k⟩
      unfold entryMatches
      rw [Bool.or_eq_true]
      rcases hmatch with hm | ⟨tg, htg, hptg⟩
      · exact Or.inl hm
      · exact Or.inr (List.any_eq_true.mpr ⟨tg, htg, hptg⟩)
    rw [if_pos hcond, hnm]
    exact congrArg some (Prod.ext rfl (hrow rel))

/-- C2: with an effectively non-empty query, global search keeps exactly
the publishers whose lowercased name contains the lowercased query, and a
cache entry yields a topic row iff its path has depth 2 and a chapter row
iff its path has depth 3, in both cases exactly when the lowercased last
path component or some lowercased tag of the entry contains the query. -/
theorem c2_global_search (s : BrowserState) (text : PyStr)
    (hq : pyStrip text ≠ []) :
    (∀ p, p ∈ (global_search s text).pubList ↔
      p ∈ s.allPublishers ∧
        pyIn (pyLower (pyStrip text)) (pyLower p) = true) ∧
    (∀ nm rel, (nm, rel) ∈ (global_search s text).topicList ↔
      ∃ tags, (rel, tags) ∈ s.tagCache ∧ (pathParts rel).length = 2 ∧
        nm = (topicRow rel).1 ∧
        (pyIn (pyLower (pyStrip text)) (pyLower ((pathParts rel).getLastD [])) = true ∨
          ∃ tg ∈ tags, pyIn (pyLower (pyStrip text)) (pyLower tg) = true)) ∧
    (∀ nm rel, (nm, rel) ∈ (global_search s text).chapterList ↔
      ∃ tags, (rel, tags) ∈ s.tagCache ∧ (pathParts rel).length = 3 ∧
        nm = (chapterRow rel).1 ∧
        (pyIn (pyLower (pyStrip text)) (pyLower ((pathParts rel).getLastD [])) = true ∨
          ∃ tg ∈ tags, pyIn (pyLower (pyStrip text)) (pyLower tg) = true)) := by
  have hne : (pyLower (pyStrip text)).isEmpty = false := by
    cases hs : pyStrip text with
    | nil => exact absurd hs hq
    | cons c cs => rfl
  rw [global_search_nonempty s text hne]
  refine ⟨fun p => ?_, fun nm rel => ?_, fun nm rel => ?_⟩
  · exact List.mem_filter
  · exact mem_searchRows _ _ 2 topicRow (fun _ => rfl) nm rel
  · exact mem_searchRows _ _ 3 chapterRow (fun _ => rfl) nm rel

/-- Witness for C2: with the query a, the concrete state yields the
matching publisher, the tagged topic, and the tagged chapter rows. -/
theorem c2_witness :
    "$_pab".toList ∈ (global_search c2State ['a']).pubList ∧
    ("top".toList, "$_pab/top".toList) ∈ (global_search c2State ['a']).topicList ∧
    ("chap (top)".toList, "$_pab/top/chap".toList)
      ∈ (global_search c2State ['a']).chapterList := by
  have h := c2_global_search c2State ['a'] (by decide)
  refine ⟨(h.1 _).mpr ⟨by decide, by decide⟩, ?_, ?_⟩
  · exact (h.2.1 _ _).mpr ⟨["alpha".toList], by decide, by decide, by decide,
      Or.inr ⟨"alpha".toList, by decide, by decide⟩⟩
  · exact (h.2.2 _ _).mpr ⟨["beta".toList], by decide, by decide, by decide,
      Or.inr ⟨"beta".toList, by decide, by decide⟩⟩
